import Mathlib

/-!
Shallow embedding of `src/project/csharp-java-memory/native/src/mock_zmq.c`.

The C file exposes three functions over caller-supplied byte buffers:

* `int64_t mock_send(const uint8_t* data, size_t len)` — sums the bytes
  into a signed 64-bit checksum;
* `int64_t mock_recv(uint8_t* buf, size_t len)` — writes `(uint8_t)(i & 0xFF)`
  at each index `i < len` and returns `(int64_t)len`;
* `void mock_transform(uint8_t* data, size_t len)` — replaces each byte
  with `data[i] ^ 0xAA` in place.

A buffer is modelled as a `List (Fin 256)`; each C loop becomes a structural
recursion on the number of remaining iterations, threading the buffer state
explicitly.  64-bit signed arithmetic is modelled on `Int` with an explicit
two's-complement wraparound.
-/

namespace MockZmq

/-- A C `uint8_t` value. -/
abbrev Byte := Fin 256

/-- Conversion of a natural number to `uint8_t` (the C cast, i.e. reduction
modulo 256). -/
def byteOfNat (n : Nat) : Byte := ⟨n % 256, Nat.mod_lt _ (by decide)⟩

/-- Two's-complement wraparound of a mathematical integer into the range of a
signed 64-bit integer. -/
def wrap64 (x : Int) : Int := (x + 2 ^ 63) % 2 ^ 64 - 2 ^ 63

/-- XOR of two bytes: C promotes to `int`, XORs, and converts back to
`uint8_t`. -/
def byteXor (a b : Byte) : Byte := byteOfNat (a.val ^^^ b.val)

/-- The loop of `mock_send`: `for (i = 0; i < len; i++) checksum += data[i];`
in state-passing form.  `k` counts the remaining iterations, so the loop body
runs for indices `i, i+1, ..., i+k-1`; the buffer is threaded through
unchanged because the body contains no store.  Out-of-range reads (undefined
behavior in C) are modelled by the default byte 0. -/
def send_iter : List Byte → Int → Nat → Nat → List Byte × Int
  | data, checksum, _, 0 => (data, checksum)
  | data, checksum, i, k + 1 =>
      send_iter data (wrap64 (checksum + ((data.getD i 0).val : Int))) (i + 1) k

/-- Embedding of `mock_send`: returns the final buffer state and the
checksum. -/
def mock_send (data : List Byte) (len : Nat) : List Byte × Int :=
  send_iter data 0 0 len

/-- The loop of `mock_recv`: `for (i = 0; i < len; i++) buf[i] = (uint8_t)(i & 0xFF);`.
Out-of-range stores (undefined behavior in C) are modelled by `List.set`,
which leaves the list unchanged. -/
def recv_iter : List Byte → Nat → Nat → List Byte
  | buf, _, 0 => buf
  | buf, i, k + 1 => recv_iter (buf.set i (byteOfNat (i &&& 0xFF))) (i + 1) k

/-- Embedding of `mock_recv`: returns the final buffer state and the return
value `(int64_t)len`. -/
def mock_recv (buf : List Byte) (len : Nat) : List Byte × Int :=
  (recv_iter buf 0 len, wrap64 (len : Int))

/-- The loop of `mock_transform`: `for (i = 0; i < len; i++) data[i] ^= 0xAA;`. -/
def xform_iter : List Byte → Nat → Nat → List Byte
  | buf, _, 0 => buf
  | buf, i, k + 1 => xform_iter (buf.set i (byteXor (buf.getD i 0) (byteOfNat 0xAA))) (i + 1) k

/-- Embedding of `mock_transform`: returns the final buffer state. -/
def mock_transform (data : List Byte) (len : Nat) : List Byte :=
  xform_iter data 0 len

/-- Sum of the byte values of a buffer, as a natural number. -/
def byteSum (data : List Byte) : Nat := (data.map Fin.val).sum

/-! ### Basic lemmas about the model -/

/-- Wraparound is the identity on values already in signed 64-bit range. -/
theorem wrap64_eq_self {x : Int} (hlo : -2 ^ 63 ≤ x) (hhi : x < 2 ^ 63) :
    wrap64 x = x := by
  unfold wrap64
  omega

/-- The send loop never writes to the buffer. -/
theorem send_iter_fst (data : List Byte) (c : Int) (i k : Nat) :
    (send_iter data c i k).1 = data := by
  induction k generalizing c i with
  | zero => rfl
  | succ k ih => exact ih _ _

/-- The receive loop preserves the length of the buffer. -/
theorem recv_iter_length (buf : List Byte) (i k : Nat) :
    (recv_iter buf i k).length = buf.length := by
  induction k generalizing buf i with
  | zero => rfl
  | succ k ih => simpa [recv_iter] using ih (buf.set i (byteOfNat (i &&& 0xFF))) (i + 1)

/-- The transform loop preserves the length of the buffer. -/
theorem xform_iter_length (buf : List Byte) (i k : Nat) :
    (xform_iter buf i k).length = buf.length := by
  induction k generalizing buf i with
  | zero => rfl
  | succ k ih =>
      simpa [xform_iter] using ih (buf.set i (byteXor (buf.getD i 0) (byteOfNat 0xAA))) (i + 1)

/-- The C index mask: `i & 0xFF` is `i mod 256`. -/
theorem and_mask_eq_mod (i : Nat) : i &&& 0xFF = i % 256 := by
  have h := Nat.and_pow_two_sub_one_eq_mod i 8
  norm_num at h
  exact h

/-- Element description of the receive loop: positions in `[i, i+k)` get the
pattern byte, all other positions keep their previous contents. -/
theorem recv_iter_getElem? (buf : List Byte) (i k j : Nat) :
    (recv_iter buf i k)[j]? =
      if i ≤ j ∧ j < i + k ∧ j < buf.length then some (byteOfNat (j % 256))
      else buf[j]? := by
  induction k generalizing buf i with
  | zero =>
      simp only [recv_iter]
      rw [if_neg (by omega)]
  | succ k ih =>
      simp only [recv_iter]
      rw [ih, List.length_set]
      by_cases hin : i + 1 ≤ j ∧ j < i + 1 + k ∧ j < buf.length
      · rw [if_pos hin, if_pos (by omega)]
      · rw [if_neg hin]
        rcases eq_or_ne j i with rfl | hne
        · by_cases hlen : j < buf.length
          · rw [List.getElem?_set_self hlen, if_pos (by omega), and_mask_eq_mod]
          · rw [List.set_eq_of_length_le (by omega), if_neg (by omega)]
        · rw [List.getElem?_set_ne (Ne.symm hne), if_neg (by omega)]

/-- Element description of the transform loop: positions in `[i, i+k)` are
XORed with the mask, all other positions keep their previous contents. -/
theorem xform_iter_getElem? (buf : List Byte) (i k j : Nat) :
    (xform_iter buf i k)[j]? =
      if i ≤ j ∧ j < i + k ∧ j < buf.length then
        some (byteXor (buf.getD j 0) (byteOfNat 0xAA))
      else buf[j]? := by
  induction k generalizing buf i with
  | zero =>
      simp only [xform_iter]
      rw [if_neg (by omega)]
  | succ k ih =>
      simp only [xform_iter]
      rw [ih, List.length_set]
      by_cases hin : i + 1 ≤ j ∧ j < i + 1 + k ∧ j < buf.length
      · rw [if_pos hin, if_pos (by omega)]
        simp only [List.getD_eq_getElem?_getD]
        rw [List.getElem?_set_ne (by omega : i ≠ j)]
      · rw [if_neg hin]
        rcases eq_or_ne j i with rfl | hne
        · by_cases hlen : j < buf.length
          · rw [List.getElem?_set_self hlen, if_pos (by omega)]
          · rw [List.set_eq_of_length_le (by omega), if_neg (by omega)]
        · rw [List.getElem?_set_ne (Ne.symm hne), if_neg (by omega)]

/-- XOR with the mask 0xAA is self-inverse on bytes. -/
theorem byteXor_mask_cancel (a : Byte) :
    byteXor (byteXor a (byteOfNat 0xAA)) (byteOfNat 0xAA) = a := by
  apply Fin.ext
  have ha : a.val < 2 ^ 8 := a.isLt
  have hx : a.val ^^^ 170 < 2 ^ 8 := Nat.xor_lt_two_pow ha (by norm_num)
  simp only [byteXor, byteOfNat]
  rw [Nat.mod_eq_of_lt (by norm_num : (170 : Nat) < 256),
    Nat.mod_eq_of_lt (show a.val ^^^ 170 < 256 from hx),
    Nat.xor_cancel_right, Nat.mod_eq_of_lt a.isLt]

/-- The byte sum of a buffer is bounded by 255 per byte. -/
theorem byteSum_le (data : List Byte) : byteSum data ≤ 255 * data.length := by
  induction data with
  | nil => simp [byteSum]
  | cons b l ih =>
      have hb : b.val ≤ 255 := Nat.lt_succ_iff.mp b.isLt
      simp only [byteSum, List.map_cons, List.sum_cons, List.length_cons] at ih ⊢
      omega

/-- Value of the send loop on the slice it traverses, provided the running
total stays within signed 64-bit range. -/
theorem send_iter_snd (data : List Byte) (k i c : Nat)
    (hik : i + k ≤ data.length)
    (hfit : c + byteSum ((data.drop i).take k) < 2 ^ 63) :
    (send_iter data (c : Int) i k).2 =
      ((c + byteSum ((data.drop i).take k) : Nat) : Int) := by
  induction k generalizing i c with
  | zero => simp [send_iter, byteSum]
  | succ k ih =>
      have hi : i < data.length := by omega
      have hdrop : data.drop i = data[i] :: data.drop (i + 1) :=
        List.drop_eq_getElem_cons hi
      have hsum : byteSum ((data.drop i).take (k + 1)) =
          data[i].val + byteSum ((data.drop (i + 1)).take k) := by
        rw [hdrop, List.take_succ_cons]
        simp [byteSum]
      have hgetD : data.getD i 0 = data[i] := by
        rw [List.getD_eq_getElem?_getD, List.getElem?_eq_getElem hi]
        rfl
      have hwrap : wrap64 ((c : Int) + (data[i].val : Int)) =
          ((c + data[i].val : Nat) : Int) := by
        rw [wrap64_eq_self (by omega) (by omega)]
        push_cast
        ring
      simp only [send_iter]
      rw [hgetD, hwrap, ih (i + 1) (c + data[i].val) (by omega) (by omega)]
      omega

/-! ### Claim theorems -/

/-- Claim C1: for every buffer `b` of length `n ≥ 0` (whose byte sum fits in
the signed 64-bit accumulator), `mock_send(b, n)` returns the sum of all `n`
byte values of `b`, each interpreted as an unsigned value in 0..255; in
particular, for `n = 0` it returns 0. -/
theorem C1_mock_send_checksum (data : List Byte)
    (hfit : byteSum data < 2 ^ 63) :
    (mock_send data data.length).2 = (byteSum data : Int) ∧
      (mock_send [] 0).2 = 0 := by
  constructor
  · have h := send_iter_snd data data.length 0 0 (by omega) (by simpa using hfit)
    simpa [mock_send] using h
  · rfl

/-- Witness for C1 at the concrete buffer `[1, 2, 3, 4]`. -/
theorem C1_witness :
    (mock_send [(1 : Byte), 2, 3, 4] 4).2 = (byteSum [(1 : Byte), 2, 3, 4] : Int) ∧
      (mock_send [] 0).2 = 0 :=
  C1_mock_send_checksum [1, 2, 3, 4] (by decide)

/-- Claim C2: for every writable buffer and every declared length `n` within
the buffer (and within signed 64-bit range), after `mock_recv(b, n)` the byte
at each position `i < n` equals `i mod 256`, and the returned value equals
`n`. -/
theorem C2_mock_recv_pattern (buf : List Byte) (n : Nat)
    (hlen : n ≤ buf.length) (hn : n < 2 ^ 63) :
    (∀ i, i < n → ((mock_recv buf n).1.getD i 0).val = i % 256) ∧
      (mock_recv buf n).2 = (n : Int) := by
  constructor
  · intro i hi
    have h := recv_iter_getElem? buf 0 n i
    rw [if_pos (by omega)] at h
    show ((recv_iter buf 0 n).getD i 0).val = i % 256
    rw [List.getD_eq_getElem?_getD, h]
    simp only [Option.getD_some, byteOfNat]
    omega
  · show wrap64 (n : Int) = (n : Int)
    exact wrap64_eq_self (by omega) (by omega)

/-- Witness for C2 at the concrete buffer `[0, 0, 0]` with `n = 2`. -/
theorem C2_witness :
    (∀ i, i < 2 → ((mock_recv [(0 : Byte), 0, 0] 2).1.getD i 0).val = i % 256) ∧
      (mock_recv [(0 : Byte), 0, 0] 2).2 = ((2 : Nat) : Int) :=
  C2_mock_recv_pattern [0, 0, 0] 2 (by decide) (by decide)

/-- Claim C3: applying `mock_transform` twice in succession to a buffer (with
its full length declared) restores the original contents. -/
theorem C3_mock_transform_self_inverse (b : List Byte) :
    mock_transform (mock_transform b b.length) b.length = b := by
  have hlen : (xform_iter b 0 b.length).length = b.length := xform_iter_length b 0 b.length
  apply List.ext_getElem?
  intro j
  simp only [mock_transform]
  rw [xform_iter_getElem? (xform_iter b 0 b.length) 0 b.length j]
  by_cases hj : j < b.length
  · rw [if_pos (by omega)]
    have ht : (xform_iter b 0 b.length).getD j 0 =
        byteXor (b.getD j 0) (byteOfNat 0xAA) := by
      rw [List.getD_eq_getElem?_getD, xform_iter_getElem? b 0 b.length j,
        if_pos (by omega)]
      rfl
    rw [ht, byteXor_mask_cancel, List.getD_eq_getElem?_getD,
      List.getElem?_eq_getElem hj]
    rfl
  · rw [if_neg (by omega), xform_iter_getElem? b 0 b.length j, if_neg (by omega)]

/-- Claim C4: after `mock_transform(b, n)` every position `i < n` holds the
original byte XOR 0xAA; for `n = 0` the call is a no-op; and
`transform([0x00, 0xFF, 0xAA], 3) = [0xAA, 0x55, 0x00]`. -/
theorem C4_mock_transform_xor (data : List Byte) (n : Nat)
    (hlen : n ≤ data.length) :
    (∀ i, i < n →
        (mock_transform data n).getD i 0 = byteXor (data.getD i 0) (byteOfNat 0xAA)) ∧
      mock_transform data 0 = data ∧
      mock_transform [byteOfNat 0x00, byteOfNat 0xFF, byteOfNat 0xAA] 3 =
        [byteOfNat 0xAA, byteOfNat 0x55, byteOfNat 0x00] := by
  refine ⟨?_, rfl, by decide⟩
  intro i hi
  have h := xform_iter_getElem? data 0 n i
  rw [if_pos (by omega)] at h
  show (xform_iter data 0 n).getD i 0 = _
  rw [List.getD_eq_getElem?_getD, h]
  rfl

/-- Witness for C4 at the concrete buffer `[0]` with `n = 1`. -/
theorem C4_witness :
    (∀ i, i < 1 →
        (mock_transform [(0 : Byte)] 1).getD i 0 =
          byteXor ([(0 : Byte)].getD i 0) (byteOfNat 0xAA)) ∧
      mock_transform [(0 : Byte)] 0 = [(0 : Byte)] ∧
      mock_transform [byteOfNat 0x00, byteOfNat 0xFF, byteOfNat 0xAA] 3 =
        [byteOfNat 0xAA, byteOfNat 0x55, byteOfNat 0x00] :=
  C4_mock_transform_xor [0] 1 (by decide)

/-- Claim C5: `mock_send` never modifies the buffer: its loop body contains
no store, so the final buffer state equals the initial one. -/
theorem C5_mock_send_preserves_buffer (data : List Byte) (len : Nat) :
    (mock_send data len).1 = data :=
  send_iter_fst data 0 0 len

/-- Claim C6: the outcome of `mock_recv` is independent of the prior buffer
contents: any two buffers of length `n` yield identical final contents and
identical return values. -/
theorem C6_mock_recv_independent_of_contents (b1 b2 : List Byte) (n : Nat)
    (h1 : b1.length = n) (h2 : b2.length = n) :
    mock_recv b1 n = mock_recv b2 n := by
  have hbuf : recv_iter b1 0 n = recv_iter b2 0 n := by
    apply List.ext_getElem?
    intro j
    rw [recv_iter_getElem? b1 0 n j, recv_iter_getElem? b2 0 n j, h1, h2]
    by_cases hj : j < n
    · rw [if_pos (by omega), if_pos (by omega)]
    · rw [if_neg (by omega), if_neg (by omega),
        List.getElem?_eq_none (by omega), List.getElem?_eq_none (by omega)]
  simp only [mock_recv, hbuf]

/-- Witness for C6 at the concrete buffers `[5]` and `[9]` with `n = 1`. -/
theorem C6_witness : mock_recv [(5 : Byte)] 1 = mock_recv [(9 : Byte)] 1 :=
  C6_mock_recv_independent_of_contents [5] [9] 1 (by decide) (by decide)

/-- Claim C7: all three operations are deterministic pure functions of the
buffer contents and the length: buffers with equal length and equal contents
produce equal return values and equal final buffer states. -/
theorem C7_ops_deterministic (b1 b2 : List Byte) (n : Nat)
    (hlen : b1.length = b2.length)
    (hcont : ∀ i, i < b1.length → b1.getD i 0 = b2.getD i 0) :
    mock_send b1 n = mock_send b2 n ∧ mock_recv b1 n = mock_recv b2 n ∧
      mock_transform b1 n = mock_transform b2 n := by
  have hb : b1 = b2 := by
    apply List.ext_getElem hlen
    intro i hi1 hi2
    have h := hcont i hi1
    rw [List.getD_eq_getElem?_getD, List.getD_eq_getElem?_getD,
      List.getElem?_eq_getElem hi1, List.getElem?_eq_getElem hi2] at h
    simpa using h
  subst hb
  exact ⟨rfl, rfl, rfl⟩

/-- Witness for C7 at the concrete buffer `[1, 2]` with `n = 2`. -/
theorem C7_witness :
    mock_send [(1 : Byte), 2] 2 = mock_send [(1 : Byte), 2] 2 ∧
      mock_recv [(1 : Byte), 2] 2 = mock_recv [(1 : Byte), 2] 2 ∧
      mock_transform [(1 : Byte), 2] 2 = mock_transform [(1 : Byte), 2] 2 :=
  C7_ops_deterministic [1, 2] [1, 2] 2 rfl (fun _ _ => rfl)

/-- Claim C8: concrete scenarios: after `mock_recv(buf, 300)` the buffer
holds 0 at 0, 255 at 255, 0 at 256 and 43 at 299; and
`mock_send([1,2,3,4], 4) = 10`. -/
theorem C8_concrete_scenarios :
    (((mock_recv (List.replicate 300 (0 : Byte)) 300).1.getD 0 0).val = 0 ∧
      ((mock_recv (List.replicate 300 (0 : Byte)) 300).1.getD 255 0).val = 255 ∧
      ((mock_recv (List.replicate 300 (0 : Byte)) 300).1.getD 256 0).val = 0 ∧
      ((mock_recv (List.replicate 300 (0 : Byte)) 300).1.getD 299 0).val = 43) ∧
      (mock_send [(1 : Byte), 2, 3, 4] 4).2 = 10 := by
  have hgen : ∀ i, i < 300 →
      ((mock_recv (List.replicate 300 (0 : Byte)) 300).1.getD i 0).val = i % 256 := by
    intro i hi
    have h := recv_iter_getElem? (List.replicate 300 (0 : Byte)) 0 300 i
    rw [if_pos (by simp only [List.length_replicate]; omega)] at h
    simp only [mock_recv]
    rw [List.getD_eq_getElem?_getD, h]
    simp only [Option.getD_some, byteOfNat]
    omega
  refine ⟨⟨?_, ?_, ?_, ?_⟩, ?_⟩
  · have h0 := hgen 0 (by norm_num)
    rwa [show (0 : Nat) % 256 = 0 by norm_num] at h0
  · have h255 := hgen 255 (by norm_num)
    rwa [show (255 : Nat) % 256 = 255 by norm_num] at h255
  · have h256 := hgen 256 (by norm_num)
    rwa [show (256 : Nat) % 256 = 0 by norm_num] at h256
  · have h299 := hgen 299 (by norm_num)
    rwa [show (299 : Nat) % 256 = 43 by norm_num] at h299
  · have hsend := send_iter_snd [(1 : Byte), 2, 3, 4] 4 0 0 (by decide) (by decide)
    simpa [mock_send, byteSum] using hsend

/-- Claim C9: `mock_recv` and `mock_transform` write only within the declared
length: every position at or beyond `n` keeps its previous contents. -/
theorem C9_writes_within_bounds (buf : List Byte) (n j : Nat) (h : n ≤ j) :
    (mock_recv buf n).1.getD j 0 = buf.getD j 0 ∧
      (mock_transform buf n).getD j 0 = buf.getD j 0 := by
  constructor
  · show (recv_iter buf 0 n).getD j 0 = _
    rw [List.getD_eq_getElem?_getD, recv_iter_getElem? buf 0 n j,
      if_neg (by omega), List.getD_eq_getElem?_getD]
  · show (xform_iter buf 0 n).getD j 0 = _
    rw [List.getD_eq_getElem?_getD, xform_iter_getElem? buf 0 n j,
      if_neg (by omega), List.getD_eq_getElem?_getD]

/-- Witness for C9 at the concrete buffer `[7]` with `n = 0` and `j = 0`. -/
theorem C9_witness :
    (mock_recv [(7 : Byte)] 0).1.getD 0 0 = [(7 : Byte)].getD 0 0 ∧
      (mock_transform [(7 : Byte)] 0).getD 0 0 = [(7 : Byte)].getD 0 0 :=
  C9_writes_within_bounds [7] 0 0 (by decide)

/-- Claim C10: when `255 * n` fits in the signed 64-bit accumulator, the
checksum returned by `mock_send` is nonnegative and at most `255 * n`. -/
theorem C10_mock_send_bounds (data : List Byte)
    (h : 255 * data.length < 2 ^ 63) :
    0 ≤ (mock_send data data.length).2 ∧
      (mock_send data data.length).2 ≤ 255 * (data.length : Int) := by
  have hle := byteSum_le data
  have hfit : byteSum data < 2 ^ 63 := by omega
  have hs : (mock_send data data.length).2 = (byteSum data : Int) := by
    have h2 := send_iter_snd data data.length 0 0 (by omega) (by simpa using hfit)
    simpa [mock_send] using h2
  rw [hs]
  constructor
  · exact Int.natCast_nonneg _
  · omega

/-- Witness for C10 at the concrete buffer `[1, 2]`. -/
theorem C10_witness :
    0 ≤ (mock_send [(1 : Byte), 2] 2).2 ∧
      (mock_send [(1 : Byte), 2] 2).2 ≤ 255 * ((2 : Nat) : Int) :=
  C10_mock_send_bounds [1, 2] (by decide)

end MockZmq
